import Mathlib

set_option maxHeartbeats 1000000

/-!
Shallow embedding of `compute/oslogin/oslogin-security-keys.py`.

The script has three functions:
  * `write_ssh_key_files(security_keys, directory)` — loops over the
    enumerated security keys, writes each private key to
    `os.path.join(directory, "google_sk_%s" % index)`, chmods the file to
    `0o600`, and returns the list of file paths;
  * `ssh_command(key_files, username, ip_address)` — prints the command
    `ssh {parameters} {username}@{ip_address}` where `parameters` joins
    `-i <file>` flags with spaces;
  * `main(user_key, ip_address, directory)` — resolves the directory
    (defaulting to `<home>/.ssh`), fetches the login profile over the
    network, reads `securityKeys` and the username of the first entry of
    `posixAccounts`, writes the key files and prints the command.

The filesystem is modelled as an explicit state: an association list of
files (path, contents, mode) plus the set of paths where opening for write
fails. Raised exceptions are modelled with `Except`; the error value
carries the filesystem state at the time the exception is raised, since
files written before the raise remain on disk. The network call of `main`
is modelled as an argument holding the result of the `execute()` call.
Printing is modelled by returning the printed line.
-/

/-- A security key entry of the login profile; `privateKey` is the field
read by the dictionary access in `write_ssh_key_files`. -/
structure SecurityKey where
  privateKey : String
deriving DecidableEq, Repr

/-- One file on disk: path, contents, permission mode bits. -/
abbrev FileRecord := String × String × Nat

/-- The filesystem state: the files on disk (an association list, first
match wins) plus the paths where `open(path, "w")` raises (permission
denied / read-only location). -/
structure FS where
  files : List FileRecord
  readOnlyPaths : List String
deriving DecidableEq, Repr

/-- Look up a path among the file records. -/
def lookupFile : List FileRecord → String → Option (String × Nat)
  | [], _ => none
  | (p, c, m) :: rest, q => if p = q then some (c, m) else lookupFile rest q

/-- Mode bits of a file freshly created by `open(path, "w")`:
`0o666` masked by the usual umask `0o022`. -/
def creationMode : Nat := 0o644

/-- Effect on the file records of `open(path, "w")` followed by
`f.write(c)`: replace the contents of an existing file keeping its mode,
or create the file with the default creation mode. -/
def writeContents : List FileRecord → String → String → List FileRecord
  | [], p, c => [(p, c, creationMode)]
  | (q, c0, m) :: rest, p, c =>
    if q = p then (q, c, m) :: rest else (q, c0, m) :: writeContents rest p c

/-- Effect of `os.chmod(path, mode)` on the file records. The script only
calls it on a file it has just written, so the path is always present. -/
def chmodFiles : List FileRecord → String → Nat → List FileRecord
  | [], _, _ => []
  | (q, c, m) :: rest, p, mode =>
    if q = p then (q, c, mode) :: rest else (q, c, m) :: chmodFiles rest p mode

/-- Contents and mode of the file at a path, if present. -/
def FS.lookup (fs : FS) (path : String) : Option (String × Nat) :=
  lookupFile fs.files path

/-- Whether `open(path, "w")` succeeds at this path. -/
def FS.writableAt (fs : FS) (path : String) : Bool :=
  ! fs.readOnlyPaths.contains path

/-- Whether a path begins with the separator, as tested by
`b.startswith(sep)` in the posix implementation of `os.path.join`. -/
def isAbsolute (s : String) : Bool :=
  match s.data with
  | [] => false
  | c :: _ => c == '/'

/-- Whether a path ends with the separator. -/
def endsWithSlash (s : String) : Bool :=
  match s.data.getLast? with
  | some c => c == '/'
  | none => false

/-- `os.path.join(a, b)` on posix, for a single extra component: if `b` is
absolute the result is `b`; else the separator is inserted unless `a` is
empty or already ends with the separator. -/
def osPathJoin (a b : String) : String :=
  if isAbsolute b then b
  else if a = "" then a ++ b
  else if endsWithSlash a then a ++ b
  else a ++ "/" ++ b

/-- The file name `google_sk_<index>`, from the `%` format in the source. -/
def keyFileName (index : Nat) : String :=
  "google_sk_" ++ toString index

/-- The full path of the key file with the given index:
`os.path.join(directory, "google_sk_%s" % index)`. -/
def keyPath (directory : String) (index : Nat) : String :=
  osPathJoin directory (keyFileName index)

/-- Exceptions `write_ssh_key_files` can raise: the `TypeError` from
`enumerate(None)` when `security_keys` is `None`, and the `OSError` from
`open(path, "w")` on a path that cannot be opened for writing. -/
inductive WriteErr where
  | typeErrorNoneIterable
  | ioErrorOpen (path : String)
deriving DecidableEq, Repr

/-- The body of the `for index, key in enumerate(security_keys)` loop of
`write_ssh_key_files`, starting at a given index. On success it returns
the accumulated `key_files` list and the final filesystem; on a raise, the
error carries the filesystem at that moment. -/
def writeKeyLoop (directory : String) :
    List SecurityKey → Nat → FS → Except (WriteErr × FS) (List String × FS)
  | [], _, fs => .ok ([], fs)
  | key :: rest, index, fs =>
    let key_file := keyPath directory index
    if fs.writableAt key_file then
      let fs1 : FS := { fs with files := writeContents fs.files key_file key.privateKey }
      let fs2 : FS := { fs1 with files := chmodFiles fs1.files key_file 0o600 }
      match writeKeyLoop directory rest (index + 1) fs2 with
      | .error e => .error e
      | .ok (paths, fs3) => .ok (key_file :: paths, fs3)
    else
      .error (.ioErrorOpen key_file, fs)

/-- `write_ssh_key_files(security_keys, directory)` from the source.
`security_keys` is `None` or a list, exactly as `profile.get` hands it
over in `main`; `enumerate(None)` raises a `TypeError` before any file is
touched. -/
def write_ssh_key_files (security_keys : Option (List SecurityKey)) (directory : String)
    (fs : FS) : Except (WriteErr × FS) (List String × FS) :=
  match security_keys with
  | none => .error (.typeErrorNoneIterable, fs)
  | some keys => writeKeyLoop directory keys 0 fs

/-- `ssh_command(key_files, username, ip_address)` from the source; the
line it prints is returned. -/
def ssh_command (key_files : List String) (username ip_address : String) : String :=
  let parameters := String.intercalate " " (key_files.map (fun f => "-i " ++ f))
  "ssh " ++ parameters ++ " " ++ username ++ "@" ++ ip_address

/-- A posix account record of the login profile. -/
structure PosixAccount where
  username : String
deriving DecidableEq, Repr

/-- The login profile returned by the `getLoginProfile` call. Both fields
are read with `profile.get`, which yields `None` when the field is
missing. -/
structure Profile where
  securityKeys : Option (List SecurityKey)
  posixAccounts : Option (List PosixAccount)
deriving DecidableEq, Repr

/-- Failures of the remote profile lookup, per the error taxonomy of the
API client boundary. -/
inductive FetchErr where
  | authenticationError
  | notFoundError
  | transientNetworkError
deriving DecidableEq, Repr

/-- Exceptions that terminate `main`: a raised fetch failure, the
`TypeError` from subscripting `None` when `posixAccounts` is missing, the
`IndexError` when it is empty, and a raise out of
`write_ssh_key_files`. -/
inductive MainErr where
  | fetchFailed (e : FetchErr)
  | typeErrorNoneSubscript
  | indexErrorEmptyAccounts
  | writeFailed (e : WriteErr)
deriving DecidableEq, Repr

/-- The directory defaulting line of `main`: `directory` unless falsy,
else the `.ssh` folder joined under the expanded home directory; the `or`
of python treats both `None` and the empty string as falsy. -/
def resolveDirectory (directory : Option String) (home : String) : String :=
  match directory with
  | none => osPathJoin home ".ssh"
  | some d => if d = "" then osPathJoin home ".ssh" else d

namespace Oslogin

/-- `main(user_key, ip_address, directory)` from the source. `fetch` holds
the result of the `getLoginProfile(...).execute()` call (the network is
outside the program); `home` is the expanded user home directory. On success the
printed command line is returned with the final filesystem. -/
def main (fetch : Except FetchErr Profile) (ip_address : String)
    (directory : Option String) (home : String) (fs : FS) :
    Except (MainErr × FS) (String × FS) :=
  let dir := resolveDirectory directory home
  match fetch with
  | .error e => .error (.fetchFailed e, fs)
  | .ok profile =>
    let security_keys := profile.securityKeys
    match profile.posixAccounts with
    | none => .error (.typeErrorNoneSubscript, fs)
    | some accounts =>
      match accounts[0]? with
      | none => .error (.indexErrorEmptyAccounts, fs)
      | some account =>
        let username := account.username
        match write_ssh_key_files security_keys dir fs with
        | .error (e, efs) => .error (.writeFailed e, efs)
        | .ok (key_files, fs1) => .ok (ssh_command key_files username ip_address, fs1)

end Oslogin

/-! ### Injectivity of the decimal representation of an index

The key file names embed `toString index`; distinctness of the paths for
distinct indices reduces to injectivity of `Nat.repr`, proved here through
a decimal evaluator that round-trips `Nat.toDigitsCore`. -/

/-- Decimal value of a digit character. -/
def decDigitVal (c : Char) : Nat := c.toNat - 48

/-- Value of a decimal digit string, most significant digit first. -/
def valOfDigits (l : List Char) : Nat :=
  l.foldl (fun a c => a * 10 + decDigitVal c) 0

theorem decDigitVal_digitChar (m : Nat) (h : m < 10) :
    decDigitVal (Nat.digitChar m) = m := by
  interval_cases m <;> rfl

theorem toDigitsCore_shift (n : Nat) : ∀ (fuel : Nat) (ds : List Char), n < fuel →
    Nat.toDigitsCore 10 fuel n ds = Nat.toDigitsCore 10 fuel n [] ++ ds := by
  induction n using Nat.strong_induction_on with
  | _ n ih =>
    intro fuel ds hfuel
    match fuel with
    | 0 => omega
    | f + 1 =>
      simp only [Nat.toDigitsCore]
      by_cases hd : n / 10 = 0
      · simp [hd]
      · have h0 : n ≠ 0 := by
          intro h
          rw [h] at hd
          exact hd rfl
        have hn10 : n / 10 < n := Nat.div_lt_self (Nat.pos_of_ne_zero h0) (by norm_num)
        have h1 : n / 10 < f := by omega
        rw [if_neg hd, if_neg hd,
          ih (n / 10) hn10 f (Nat.digitChar (n % 10) :: ds) h1,
          ih (n / 10) hn10 f [Nat.digitChar (n % 10)] h1]
        simp

theorem valOfDigits_append (l : List Char) (c : Char) :
    valOfDigits (l ++ [c]) = valOfDigits l * 10 + decDigitVal c := by
  simp [valOfDigits, List.foldl_append]

theorem valOfDigits_toDigitsCore (n : Nat) : ∀ (fuel : Nat), n < fuel →
    valOfDigits (Nat.toDigitsCore 10 fuel n []) = n := by
  induction n using Nat.strong_induction_on with
  | _ n ih =>
    intro fuel hfuel
    match fuel with
    | 0 => omega
    | f + 1 =>
      simp only [Nat.toDigitsCore]
      by_cases hd : n / 10 = 0
      · rw [if_pos hd]
        have hn : n < 10 := by omega
        rw [show valOfDigits [Nat.digitChar (n % 10)]
              = 0 * 10 + decDigitVal (Nat.digitChar (n % 10)) from rfl,
          decDigitVal_digitChar (n % 10) (Nat.mod_lt n (by norm_num))]
        omega
      · have h0 : n ≠ 0 := by
          intro h
          rw [h] at hd
          exact hd rfl
        have hn10 : n / 10 < n := Nat.div_lt_self (Nat.pos_of_ne_zero h0) (by norm_num)
        have h1 : n / 10 < f := by omega
        rw [if_neg hd, toDigitsCore_shift (n / 10) f [Nat.digitChar (n % 10)] h1,
          valOfDigits_append, ih (n / 10) hn10 f h1,
          decDigitVal_digitChar (n % 10) (Nat.mod_lt n (by norm_num))]
        omega

theorem natRepr_inj (a b : Nat) (h : Nat.repr a = Nat.repr b) : a = b := by
  have hd : Nat.toDigits 10 a = Nat.toDigits 10 b := by
    have h2 := congrArg String.data h
    simpa [Nat.repr, List.asString] using h2
  have ha := valOfDigits_toDigitsCore a (a + 1) (Nat.lt_succ_self a)
  have hb := valOfDigits_toDigitsCore b (b + 1) (Nat.lt_succ_self b)
  unfold Nat.toDigits at hd
  rw [hd] at ha
  exact ha.symm.trans hb

theorem toString_nat_inj (a b : Nat) (h : toString a = toString b) : a = b :=
  natRepr_inj a b h

/-! ### String and path lemmas -/

theorem string_append_left_cancel (s : String) {t u : String} (h : s ++ t = s ++ u) :
    t = u := by
  have hd := congrArg String.data h
  simp only [String.data_append] at hd
  exact String.ext (List.append_cancel_left hd)

theorem keyFileName_inj (a b : Nat) (h : keyFileName a = keyFileName b) : a = b := by
  unfold keyFileName at h
  exact toString_nat_inj a b (string_append_left_cancel "google_sk_" h)

theorem data_google_append (t : String) :
    ("google_sk_" ++ t).data = 'g' :: ("oogle_sk_" ++ t).data := by
  simp only [String.data_append]
  rfl

theorem isAbsolute_keyFileName (i : Nat) : isAbsolute (keyFileName i) = false := by
  unfold keyFileName isAbsolute
  rw [data_google_append]
  rfl

theorem keyPath_inj (dir : String) (a b : Nat) (h : keyPath dir a = keyPath dir b) :
    a = b := by
  apply keyFileName_inj
  unfold keyPath osPathJoin at h
  rw [isAbsolute_keyFileName a, isAbsolute_keyFileName b] at h
  simp only [Bool.false_eq_true, if_false] at h
  by_cases h1 : dir = ""
  · rw [if_pos h1, if_pos h1] at h
    exact string_append_left_cancel dir h
  · rw [if_neg h1, if_neg h1] at h
    by_cases h2 : endsWithSlash dir = true
    · rw [if_pos h2, if_pos h2] at h
      exact string_append_left_cancel dir h
    · rw [if_neg h2, if_neg h2] at h
      exact string_append_left_cancel (dir ++ "/") h

theorem keyPath_literal (dir : String) (i : Nat) :
    dir ++ "/" ++ keyFileName i = dir ++ "/google_sk_" ++ toString i := by
  apply String.ext
  simp only [String.data_append, List.append_assoc]
  rfl

theorem keyPath_of_normal_dir (dir : String) (hne : dir ≠ "")
    (hs : endsWithSlash dir = false) (i : Nat) :
    keyPath dir i = dir ++ "/google_sk_" ++ toString i := by
  unfold keyPath osPathJoin
  rw [isAbsolute_keyFileName i]
  simp only [Bool.false_eq_true, if_false, if_neg hne]
  rw [hs]
  simp only [Bool.false_eq_true, if_false]
  exact keyPath_literal dir i

/-! ### Association list lemmas for the filesystem operations -/

theorem lookupFile_writeContents_self (l : List FileRecord) (p c : String) :
    ∃ m, lookupFile (writeContents l p c) p = some (c, m) := by
  induction l with
  | nil => exact ⟨creationMode, by simp [writeContents, lookupFile]⟩
  | cons hd tl ih =>
    obtain ⟨q, c0, m0⟩ := hd
    by_cases hq : q = p
    · exact ⟨m0, by simp [writeContents, lookupFile, hq]⟩
    · simpa [writeContents, lookupFile, hq] using ih

theorem lookupFile_writeContents_other (l : List FileRecord) (p c q : String)
    (hq : q ≠ p) : lookupFile (writeContents l p c) q = lookupFile l q := by
  induction l with
  | nil => simp [writeContents, lookupFile, Ne.symm hq]
  | cons hd tl ih =>
    obtain ⟨r, c0, m0⟩ := hd
    by_cases hr : r = p
    · subst hr
      simp [writeContents, lookupFile, Ne.symm hq]
    · simp only [writeContents, if_neg hr, lookupFile]
      by_cases hrq : r = q
      · simp [hrq]
      · simp [hrq, ih]

theorem lookupFile_chmodFiles_self (l : List FileRecord) (p : String) (mo : Nat)
    (c : String) (m : Nat) (h : lookupFile l p = some (c, m)) :
    lookupFile (chmodFiles l p mo) p = some (c, mo) := by
  induction l with
  | nil => simp [lookupFile] at h
  | cons hd tl ih =>
    obtain ⟨r, c0, m0⟩ := hd
    by_cases hr : r = p
    · subst hr
      obtain ⟨hc, hm⟩ : c0 = c ∧ m0 = m := by
        simpa [lookupFile] using h
      simp [chmodFiles, lookupFile, hc]
    · simp only [lookupFile, if_neg hr] at h
      simp only [chmodFiles, if_neg hr, lookupFile, if_neg hr]
      exact ih h

theorem lookupFile_chmodFiles_other (l : List FileRecord) (p : String) (mo : Nat)
    (q : String) (hq : q ≠ p) :
    lookupFile (chmodFiles l p mo) q = lookupFile l q := by
  induction l with
  | nil => rfl
  | cons hd tl ih =>
    obtain ⟨r, c0, m0⟩ := hd
    by_cases hr : r = p
    · subst hr
      simp [chmodFiles, lookupFile, Ne.symm hq]
    · simp only [chmodFiles, if_neg hr, lookupFile]
      by_cases hrq : r = q
      · simp [hrq]
      · simp [hrq, ih]

/-- Net effect on the file at the written path of one loop iteration:
opened and written, then chmodded to `0o600`. -/
theorem lookup_step_self (l : List FileRecord) (p c : String) :
    lookupFile (chmodFiles (writeContents l p c) p 0o600) p = some (c, 0o600) := by
  obtain ⟨m, hm⟩ := lookupFile_writeContents_self l p c
  exact lookupFile_chmodFiles_self _ p 0o600 c m hm

/-- One loop iteration leaves every other path untouched. -/
theorem lookup_step_other (l : List FileRecord) (p c q : String) (hq : q ≠ p) :
    lookupFile (chmodFiles (writeContents l p c) p 0o600) q = lookupFile l q := by
  rw [lookupFile_chmodFiles_other _ p _ q hq, lookupFile_writeContents_other l p c q hq]

/-! ### The write loop -/

/-- Structural unfolding of `writeKeyLoop` on a nonempty list. -/
theorem writeKeyLoop_cons (dir : String) (key : SecurityKey) (rest : List SecurityKey)
    (index : Nat) (fs : FS) :
    writeKeyLoop dir (key :: rest) index fs =
      if fs.writableAt (keyPath dir index) then
        match writeKeyLoop dir rest (index + 1)
            ⟨chmodFiles (writeContents fs.files (keyPath dir index) key.privateKey)
              (keyPath dir index) 0o600, fs.readOnlyPaths⟩ with
        | .error e => .error e
        | .ok (paths, fs3) => .ok (keyPath dir index :: paths, fs3)
      else .error (.ioErrorOpen (keyPath dir index), fs) := rfl

theorem range_map_keyPath (dir : String) (start n : Nat) :
    (List.range (n + 1)).map (fun i => keyPath dir (start + i)) =
      keyPath dir start :: (List.range n).map (fun i => keyPath dir (start + 1 + i)) := by
  rw [List.range_succ_eq_map, List.map_cons, List.map_map, Nat.add_zero]
  congr 1
  apply List.map_congr_left
  intro i _
  show keyPath dir (start + (i + 1)) = keyPath dir (start + 1 + i)
  rw [Nat.add_comm i 1, ← Nat.add_assoc]

/-- Success run of the write loop: all target paths writable. The final
state holds each key at its indexed path with mode `0o600`, every other
path is untouched, and the returned paths list enumerates the indices in
order. -/
theorem writeKeyLoop_ok (dir : String) (keys : List SecurityKey) :
    ∀ (start : Nat) (fs : FS),
    (∀ i, i < keys.length → fs.writableAt (keyPath dir (start + i)) = true) →
    ∃ fs' : FS,
      writeKeyLoop dir keys start fs =
        .ok ((List.range keys.length).map (fun i => keyPath dir (start + i)), fs')
      ∧ fs'.readOnlyPaths = fs.readOnlyPaths
      ∧ (∀ i (h : i < keys.length),
          fs'.lookup (keyPath dir (start + i)) = some ((keys.get ⟨i, h⟩).privateKey, 0o600))
      ∧ (∀ q : String, (∀ i, i < keys.length → q ≠ keyPath dir (start + i)) →
          fs'.lookup q = fs.lookup q) := by
  induction keys with
  | nil =>
    intro start fs hw
    refine ⟨fs, rfl, rfl, ?_, ?_⟩
    · intro i h
      exact absurd h (Nat.not_lt_zero i)
    · intro q _
      rfl
  | cons key rest ih =>
    intro start fs hw
    have hw0 : fs.writableAt (keyPath dir start) = true := by
      have h := hw 0 (by simp)
      simpa using h
    have hw2 : ∀ i, i < rest.length →
        FS.writableAt ⟨chmodFiles (writeContents fs.files (keyPath dir start) key.privateKey)
          (keyPath dir start) 0o600, fs.readOnlyPaths⟩ (keyPath dir (start + 1 + i)) = true := by
      intro i hi
      have h := hw (i + 1) (by simpa using Nat.succ_lt_succ hi)
      rw [show start + 1 + i = start + (i + 1) by omega]
      exact h
    obtain ⟨fs', h1, h2, h3, h4⟩ := ih (start + 1)
      ⟨chmodFiles (writeContents fs.files (keyPath dir start) key.privateKey)
        (keyPath dir start) 0o600, fs.readOnlyPaths⟩ hw2
    refine ⟨fs', ?_, h2, ?_, ?_⟩
    · rw [writeKeyLoop_cons dir key rest start fs, if_pos hw0, h1,
        List.length_cons, range_map_keyPath]
    · intro i h
      match i with
      | 0 =>
        have hne : ∀ j, j < rest.length → keyPath dir start ≠ keyPath dir (start + 1 + j) := by
          intro j hj heq
          have := keyPath_inj dir _ _ heq
          omega
        rw [Nat.add_zero, h4 _ hne]
        exact lookup_step_self fs.files (keyPath dir start) key.privateKey
      | i' + 1 =>
        have h' : i' < rest.length := Nat.lt_of_succ_lt_succ h
        rw [show start + (i' + 1) = start + 1 + i' by omega]
        exact h3 i' h'
    · intro q hq
      have hq' : ∀ j, j < rest.length → q ≠ keyPath dir (start + 1 + j) := by
        intro j hj
        have h := hq (j + 1) (by simpa using Nat.succ_lt_succ hj)
        rwa [show start + (j + 1) = start + 1 + j by omega] at h
      rw [h4 q hq']
      have hq0 : q ≠ keyPath dir start := by
        have h := hq 0 (by simp)
        rwa [Nat.add_zero] at h
      exact lookup_step_other fs.files (keyPath dir start) key.privateKey q hq0

/-- Failure run of the write loop: the paths before position `k` are
writable but the one at position `k` is not. The loop raises there; the
files already written remain on disk with their contents and mode, and
every other path is untouched. -/
theorem writeKeyLoop_fail (dir : String) (keys : List SecurityKey) :
    ∀ (start k : Nat) (fs : FS), k < keys.length →
    (∀ i, i < k → fs.writableAt (keyPath dir (start + i)) = true) →
    fs.writableAt (keyPath dir (start + k)) = false →
    ∃ fs' : FS,
      writeKeyLoop dir keys start fs =
        .error (.ioErrorOpen (keyPath dir (start + k)), fs')
      ∧ fs'.readOnlyPaths = fs.readOnlyPaths
      ∧ (∀ i, i < k → fs'.lookup (keyPath dir (start + i)) =
          keys[i]?.map (fun key => (key.privateKey, 0o600)))
      ∧ (∀ q : String, (∀ i, i < k → q ≠ keyPath dir (start + i)) →
          fs'.lookup q = fs.lookup q) := by
  induction keys with
  | nil =>
    intro start k fs hk
    exact absurd hk (Nat.not_lt_zero k)
  | cons key rest ih =>
    intro start k fs hk hw hfail
    cases k with
    | zero =>
      rw [Nat.add_zero] at hfail
      have hnw : ¬ (fs.writableAt (keyPath dir start) = true) := by
        rw [hfail]
        exact Bool.false_ne_true
      refine ⟨fs, ?_, rfl, ?_, ?_⟩
      · rw [writeKeyLoop_cons dir key rest start fs, if_neg hnw, Nat.add_zero]
      · intro i h
        exact absurd h (Nat.not_lt_zero i)
      · intro q _
        rfl
    | succ k' =>
      have hw0 : fs.writableAt (keyPath dir start) = true := by
        have h := hw 0 (Nat.succ_pos k')
        rwa [Nat.add_zero] at h
      have hk' : k' < rest.length := Nat.lt_of_succ_lt_succ hk
      have hw2 : ∀ i, i < k' →
          FS.writableAt ⟨chmodFiles (writeContents fs.files (keyPath dir start) key.privateKey)
            (keyPath dir start) 0o600, fs.readOnlyPaths⟩ (keyPath dir (start + 1 + i)) = true := by
        intro i hi
        have h := hw (i + 1) (Nat.succ_lt_succ hi)
        rw [show start + 1 + i = start + (i + 1) by omega]
        exact h
      have hfail2 :
          FS.writableAt ⟨chmodFiles (writeContents fs.files (keyPath dir start) key.privateKey)
            (keyPath dir start) 0o600, fs.readOnlyPaths⟩ (keyPath dir (start + 1 + k')) = false := by
        rw [show start + 1 + k' = start + (k' + 1) by omega]
        exact hfail
      obtain ⟨fs', h1, h2, h3, h4⟩ := ih (start + 1) k'
        ⟨chmodFiles (writeContents fs.files (keyPath dir start) key.privateKey)
          (keyPath dir start) 0o600, fs.readOnlyPaths⟩ hk' hw2 hfail2
      refine ⟨fs', ?_, h2, ?_, ?_⟩
      · rw [writeKeyLoop_cons dir key rest start fs, if_pos hw0, h1,
          show start + (k' + 1) = start + 1 + k' by omega]
      · intro i h
        match i with
        | 0 =>
          have hne : ∀ j, j < k' → keyPath dir start ≠ keyPath dir (start + 1 + j) := by
            intro j hj heq
            have := keyPath_inj dir _ _ heq
            omega
          rw [Nat.add_zero, h4 _ hne, List.getElem?_cons_zero, Option.map_some']
          exact lookup_step_self fs.files (keyPath dir start) key.privateKey
        | i' + 1 =>
          have h' : i' < k' := Nat.lt_of_succ_lt_succ h
          rw [show start + (i' + 1) = start + 1 + i' by omega, List.getElem?_cons_succ]
          exact h3 i' h'
      · intro q hq
        have hq' : ∀ j, j < k' → q ≠ keyPath dir (start + 1 + j) := by
          intro j hj
          have h := hq (j + 1) (Nat.succ_lt_succ hj)
          rwa [show start + (j + 1) = start + 1 + j by omega] at h
        rw [h4 q hq']
        have hq0 : q ≠ keyPath dir start := by
          have h := hq 0 (Nat.succ_pos k')
          rwa [Nat.add_zero] at h
        exact lookup_step_other fs.files (keyPath dir start) key.privateKey q hq0

/-- `write_ssh_key_files` on a list with all target paths writable,
with the indices starting at zero. -/
theorem write_ssh_key_files_ok (keys : List SecurityKey) (dir : String) (fs : FS)
    (hw : ∀ i, i < keys.length → fs.writableAt (keyPath dir i) = true) :
    ∃ fs' : FS,
      write_ssh_key_files (some keys) dir fs =
        .ok ((List.range keys.length).map (fun i => keyPath dir i), fs')
      ∧ fs'.readOnlyPaths = fs.readOnlyPaths
      ∧ (∀ i (h : i < keys.length),
          fs'.lookup (keyPath dir i) = some ((keys.get ⟨i, h⟩).privateKey, 0o600))
      ∧ (∀ q : String, (∀ i, i < keys.length → q ≠ keyPath dir i) →
          fs'.lookup q = fs.lookup q) := by
  have hw0 : ∀ i, i < keys.length → fs.writableAt (keyPath dir (0 + i)) = true := by
    intro i hi
    rw [Nat.zero_add]
    exact hw i hi
  obtain ⟨fs', h1, h2, h3, h4⟩ := writeKeyLoop_ok dir keys 0 fs hw0
  have hl : (List.range keys.length).map (fun i => keyPath dir (0 + i)) =
      (List.range keys.length).map (fun i => keyPath dir i) := by
    apply List.map_congr_left
    intro i _
    rw [Nat.zero_add]
  refine ⟨fs', ?_, h2, ?_, ?_⟩
  · show writeKeyLoop dir keys 0 fs = _
    rw [h1, hl]
  · intro i h
    have hx := h3 i h
    rwa [Nat.zero_add] at hx
  · intro q hq
    apply h4
    intro i hi
    rw [Nat.zero_add]
    exact hq i hi

/-! ### The claims -/

/-- C1: for every nonempty entry list and every directory, with the target
paths writable, `write_ssh_key_files` creates exactly the files
`google_sk_0 .. google_sk_(N-1)` under the directory in input order (the
returned path list enumerates them in order and is duplicate-free, and no
other path is touched), each file holding the private key string of its
entry with mode `0o600` set right after the write; for a directory that is
nonempty and has no trailing separator, the path of file `i` is literally
`<directory>/google_sk_<i>`. -/
theorem c1_writer_creates_indexed_files (keys : List SecurityKey) (dir : String)
    (fs : FS) (hN : 1 ≤ keys.length)
    (hw : ∀ i, i < keys.length → fs.writableAt (keyPath dir i) = true) :
    ∃ fs' : FS,
      write_ssh_key_files (some keys) dir fs =
        .ok ((List.range keys.length).map (fun i => keyPath dir i), fs')
      ∧ ((List.range keys.length).map (fun i => keyPath dir i)).Nodup
      ∧ (∀ i (h : i < keys.length),
          fs'.lookup (keyPath dir i) = some ((keys.get ⟨i, h⟩).privateKey, 0o600))
      ∧ (∀ q : String, (∀ i, i < keys.length → q ≠ keyPath dir i) →
          fs'.lookup q = fs.lookup q)
      ∧ (dir ≠ "" → endsWithSlash dir = false →
          ∀ i, keyPath dir i = dir ++ "/google_sk_" ++ toString i) := by
  obtain ⟨fs', h1, h2, h3, h4⟩ := write_ssh_key_files_ok keys dir fs hw
  have hinj : Function.Injective (fun i => keyPath dir i) := by
    intro a b h
    exact keyPath_inj dir a b h
  exact ⟨fs', h1, (List.nodup_range keys.length).map hinj, h3, h4,
    fun hne hs i => keyPath_of_normal_dir dir hne hs i⟩

/-- Witness for C1 at a concrete input: two keys, an empty filesystem. -/
theorem c1_writer_creates_indexed_files_witness :
    (1 ≤ ([⟨"KEY0"⟩, ⟨"KEY1"⟩] : List SecurityKey).length)
    ∧ ∃ fs' : FS,
      write_ssh_key_files (some [⟨"KEY0"⟩, ⟨"KEY1"⟩]) "/root/.ssh" ⟨[], []⟩ =
        .ok ((List.range ([⟨"KEY0"⟩, ⟨"KEY1"⟩] : List SecurityKey).length).map
          (fun i => keyPath "/root/.ssh" i), fs')
      ∧ ((List.range ([⟨"KEY0"⟩, ⟨"KEY1"⟩] : List SecurityKey).length).map
          (fun i => keyPath "/root/.ssh" i)).Nodup
      ∧ (∀ i (h : i < ([⟨"KEY0"⟩, ⟨"KEY1"⟩] : List SecurityKey).length),
          fs'.lookup (keyPath "/root/.ssh" i) =
            some ((([⟨"KEY0"⟩, ⟨"KEY1"⟩] : List SecurityKey).get ⟨i, h⟩).privateKey, 0o600))
      ∧ (∀ q : String,
          (∀ i, i < ([⟨"KEY0"⟩, ⟨"KEY1"⟩] : List SecurityKey).length →
            q ≠ keyPath "/root/.ssh" i) →
          fs'.lookup q = FS.lookup ⟨[], []⟩ q)
      ∧ ("/root/.ssh" ≠ "" → endsWithSlash "/root/.ssh" = false →
          ∀ i, keyPath "/root/.ssh" i = "/root/.ssh" ++ "/google_sk_" ++ toString i) :=
  ⟨by decide,
    c1_writer_creates_indexed_files [⟨"KEY0"⟩, ⟨"KEY1"⟩] "/root/.ssh" ⟨[], []⟩
      (by decide) (fun i _ => rfl)⟩

/-- C4: on the empty entry list the writer touches nothing: it returns the
empty path list and the very same filesystem state, for every directory. -/
theorem c4_empty_entries_write_nothing (dir : String) (fs : FS) :
    write_ssh_key_files (some []) dir fs = .ok ([], fs) := rfl

/-- C6: round trip — for every entry list, the contents stored at the path
of entry `i` equal the private-key string of that entry (strings are compared
byte-for-byte). -/
theorem c6_round_trip_contents (keys : List SecurityKey) (dir : String) (fs : FS)
    (hw : ∀ i, i < keys.length → fs.writableAt (keyPath dir i) = true) :
    ∃ (paths : List String) (fs' : FS),
      write_ssh_key_files (some keys) dir fs = .ok (paths, fs')
      ∧ ∀ i (h : i < keys.length),
          (fs'.lookup (keyPath dir i)).map Prod.fst =
            some (keys.get ⟨i, h⟩).privateKey := by
  obtain ⟨fs', h1, h2, h3, h4⟩ := write_ssh_key_files_ok keys dir fs hw
  refine ⟨_, fs', h1, ?_⟩
  intro i h
  rw [h3 i h]
  rfl

/-- Witness for C6 at a concrete input. -/
theorem c6_round_trip_contents_witness :
    ∃ (paths : List String) (fs' : FS),
      write_ssh_key_files (some [⟨"SECRET"⟩]) "/h/.ssh" ⟨[("/h/old", "x", 420)], []⟩ =
        .ok (paths, fs')
      ∧ ∀ i (h : i < ([⟨"SECRET"⟩] : List SecurityKey).length),
          (fs'.lookup (keyPath "/h/.ssh" i)).map Prod.fst =
            some (([⟨"SECRET"⟩] : List SecurityKey).get ⟨i, h⟩).privateKey :=
  c6_round_trip_contents [⟨"SECRET"⟩] "/h/.ssh" ⟨[("/h/old", "x", 420)], []⟩
    (fun i _ => rfl)

/-- C7: a second run over the same directory succeeds even though the
indexed files already exist; each is silently overwritten, and afterwards
each file holds the corresponding private key of the second run. -/
theorem c7_second_run_overwrites (keys1 keys2 : List SecurityKey) (dir : String)
    (fs : FS) (hlen : keys2.length = keys1.length)
    (hw : ∀ i, i < keys1.length → fs.writableAt (keyPath dir i) = true) :
    ∃ (paths : List String) (fsa fsb : FS),
      write_ssh_key_files (some keys1) dir fs = .ok (paths, fsa)
      ∧ (∀ i, i < keys2.length → (fsa.lookup (keyPath dir i)).isSome = true)
      ∧ write_ssh_key_files (some keys2) dir fsa = .ok (paths, fsb)
      ∧ (∀ i (h : i < keys2.length),
          fsb.lookup (keyPath dir i) = some ((keys2.get ⟨i, h⟩).privateKey, 0o600)) := by
  obtain ⟨fsa, h1, h2, h3, h4⟩ := write_ssh_key_files_ok keys1 dir fs hw
  have hwa : ∀ i, i < keys2.length → fsa.writableAt (keyPath dir i) = true := by
    intro i hi
    have he : FS.writableAt fsa (keyPath dir i) = FS.writableAt fs (keyPath dir i) := by
      unfold FS.writableAt
      rw [h2]
    rw [he]
    exact hw i (by omega)
  obtain ⟨fsb, g1, g2, g3, g4⟩ := write_ssh_key_files_ok keys2 dir fsa hwa
  refine ⟨(List.range keys1.length).map (fun i => keyPath dir i), fsa, fsb, h1, ?_, ?_, g3⟩
  · intro i hi
    rw [h3 i (by omega)]
    rfl
  · rw [g1, hlen]

/-- Witness for C7 at a concrete input: the second run replaces the old
key string with the new one. -/
theorem c7_second_run_overwrites_witness :
    (([⟨"NEW"⟩] : List SecurityKey).length = ([⟨"OLD"⟩] : List SecurityKey).length)
    ∧ ∃ (paths : List String) (fsa fsb : FS),
      write_ssh_key_files (some [⟨"OLD"⟩]) "/s" ⟨[], []⟩ = .ok (paths, fsa)
      ∧ (∀ i, i < ([⟨"NEW"⟩] : List SecurityKey).length →
          (fsa.lookup (keyPath "/s" i)).isSome = true)
      ∧ write_ssh_key_files (some [⟨"NEW"⟩]) "/s" fsa = .ok (paths, fsb)
      ∧ (∀ i (h : i < ([⟨"NEW"⟩] : List SecurityKey).length),
          fsb.lookup (keyPath "/s" i) =
            some ((([⟨"NEW"⟩] : List SecurityKey).get ⟨i, h⟩).privateKey, 0o600)) :=
  ⟨by decide,
    c7_second_run_overwrites [⟨"OLD"⟩] [⟨"NEW"⟩] "/s" ⟨[], []⟩ (by decide) (fun i _ => rfl)⟩

/-- C2: the formatter output for paths `/a`, `/b`, user `alice`, host
`1.2.3.4` is exactly `ssh -i /a -i /b alice@1.2.3.4`; in general each path
is prefixed with the identity flag and the parts are joined with single
spaces, the username and host inserted verbatim with no escaping. -/
theorem c2_formatter_output :
    ssh_command ["/a", "/b"] "alice" "1.2.3.4" = "ssh -i /a -i /b alice@1.2.3.4"
    ∧ ∀ (key_files : List String) (username ip_address : String),
        ssh_command key_files username ip_address =
          "ssh " ++ String.intercalate " " (key_files.map (fun f => "-i " ++ f))
            ++ " " ++ username ++ "@" ++ ip_address := by
  refine ⟨by decide, ?_⟩
  intro key_files username ip_address
  rfl

/-- C3: the username printed in the SSH command is the username of the
first posix account record; the records after the first have no effect on
the result of `main`. -/
theorem c3_first_posix_account_username (keys : List SecurityKey) (acct : PosixAccount)
    (rest rest2 : List PosixAccount) (ip home : String) (dirOpt : Option String)
    (fs : FS)
    (hw : ∀ i, i < keys.length →
        fs.writableAt (keyPath (resolveDirectory dirOpt home) i) = true) :
    ∃ fs' : FS,
      Oslogin.main (.ok ⟨some keys, some (acct :: rest)⟩) ip dirOpt home fs =
        .ok (ssh_command ((List.range keys.length).map
          (fun i => keyPath (resolveDirectory dirOpt home) i)) acct.username ip, fs')
      ∧ Oslogin.main (.ok ⟨some keys, some (acct :: rest2)⟩) ip dirOpt home fs =
          Oslogin.main (.ok ⟨some keys, some (acct :: rest)⟩) ip dirOpt home fs := by
  obtain ⟨fs', h1, h2, h3, h4⟩ :=
    write_ssh_key_files_ok keys (resolveDirectory dirOpt home) fs hw
  refine ⟨fs', ?_, ?_⟩
  · simp only [Oslogin.main, List.getElem?_cons_zero]
    rw [h1]
  · simp only [Oslogin.main, List.getElem?_cons_zero]

/-- Witness for C3 at a concrete input: two posix accounts, the second is
ignored. -/
theorem c3_first_posix_account_username_witness :
    ∃ fs' : FS,
      Oslogin.main (.ok ⟨some [⟨"K"⟩], some [⟨"alice"⟩, ⟨"bob"⟩]⟩) "1.2.3.4" none
        "/home/u" ⟨[], []⟩ =
        .ok (ssh_command ((List.range ([⟨"K"⟩] : List SecurityKey).length).map
          (fun i => keyPath (resolveDirectory none "/home/u") i))
          (PosixAccount.mk "alice").username "1.2.3.4", fs')
      ∧ Oslogin.main (.ok ⟨some [⟨"K"⟩], some [⟨"alice"⟩]⟩) "1.2.3.4" none
          "/home/u" ⟨[], []⟩ =
        Oslogin.main (.ok ⟨some [⟨"K"⟩], some [⟨"alice"⟩, ⟨"bob"⟩]⟩) "1.2.3.4" none
          "/home/u" ⟨[], []⟩ :=
  c3_first_posix_account_username [⟨"K"⟩] ⟨"alice"⟩ [⟨"bob"⟩] [] "1.2.3.4" "/home/u"
    none ⟨[], []⟩ (fun i _ => rfl)

/-- C5: when the profile has no `securityKeys` field, `main` hands `None`
to `write_ssh_key_files`, whose enumeration raises a `TypeError`: the run
ends in an error with the filesystem untouched and no command printed,
instead of an empty-list success. -/
theorem c5_missing_security_keys_raises (acct : PosixAccount)
    (accts : List PosixAccount) (ip home : String) (dirOpt : Option String) (fs : FS) :
    Oslogin.main (.ok ⟨none, some (acct :: accts)⟩) ip dirOpt home fs =
      .error (.writeFailed .typeErrorNoneIterable, fs)
    ∧ write_ssh_key_files none (resolveDirectory dirOpt home) fs =
        .error (.typeErrorNoneIterable, fs)
    ∧ write_ssh_key_files none (resolveDirectory dirOpt home) fs ≠ .ok ([], fs) := by
  refine ⟨?_, rfl, ?_⟩
  · simp only [Oslogin.main, List.getElem?_cons_zero, write_ssh_key_files]
  · intro h
    exact Except.noConfusion h

/-- C8: a failure at position `k` of the loop rolls nothing back — the
files for entries `0..k-1` stay on disk with their written contents and
mode, no other path is touched, and the raise propagates to the caller as
the error result. -/
theorem c8_no_rollback_on_mid_loop_failure (keys : List SecurityKey) (dir : String)
    (fs : FS) (k : Nat) (hk0 : 0 < k) (hk : k < keys.length)
    (hw : ∀ i, i < k → fs.writableAt (keyPath dir i) = true)
    (hfail : fs.writableAt (keyPath dir k) = false) :
    ∃ fs' : FS,
      write_ssh_key_files (some keys) dir fs =
        .error (.ioErrorOpen (keyPath dir k), fs')
      ∧ (∀ i, i < k → fs'.lookup (keyPath dir i) =
          keys[i]?.map (fun key => (key.privateKey, 0o600)))
      ∧ (∀ q : String, (∀ i, i < k → q ≠ keyPath dir i) →
          fs'.lookup q = fs.lookup q) := by
  have hw0 : ∀ i, i < k → fs.writableAt (keyPath dir (0 + i)) = true := by
    intro i hi
    rw [Nat.zero_add]
    exact hw i hi
  have hfail0 : fs.writableAt (keyPath dir (0 + k)) = false := by
    rw [Nat.zero_add]
    exact hfail
  obtain ⟨fs', h1, h2, h3, h4⟩ := writeKeyLoop_fail dir keys 0 k fs hk hw0 hfail0
  refine ⟨fs', ?_, ?_, ?_⟩
  · show writeKeyLoop dir keys 0 fs = _
    rw [h1, Nat.zero_add]
  · intro i hi
    have hx := h3 i hi
    rwa [Nat.zero_add] at hx
  · intro q hq
    apply h4
    intro i hi
    rw [Nat.zero_add]
    exact hq i hi

/-- Witness for C8 at a concrete input: the second target path is not
writable, the first file stays on disk. -/
theorem c8_no_rollback_on_mid_loop_failure_witness :
    (0 < 1) ∧ (1 < ([⟨"PKA"⟩, ⟨"PKB"⟩] : List SecurityKey).length)
    ∧ (∀ i, i < 1 → FS.writableAt ⟨[], ["/d/google_sk_1"]⟩ (keyPath "/d" i) = true)
    ∧ FS.writableAt ⟨[], ["/d/google_sk_1"]⟩ (keyPath "/d" 1) = false
    ∧ ∃ fs' : FS,
      write_ssh_key_files (some [⟨"PKA"⟩, ⟨"PKB"⟩]) "/d" ⟨[], ["/d/google_sk_1"]⟩ =
        .error (.ioErrorOpen (keyPath "/d" 1), fs')
      ∧ (∀ i, i < 1 → fs'.lookup (keyPath "/d" i) =
          ([⟨"PKA"⟩, ⟨"PKB"⟩] : List SecurityKey)[i]?.map
            (fun key => (key.privateKey, 0o600)))
      ∧ (∀ q : String, (∀ i, i < 1 → q ≠ keyPath "/d" i) →
          fs'.lookup q = FS.lookup ⟨[], ["/d/google_sk_1"]⟩ q) :=
  ⟨by decide, by decide, by decide, by decide,
    c8_no_rollback_on_mid_loop_failure [⟨"PKA"⟩, ⟨"PKB"⟩] "/d" ⟨[], ["/d/google_sk_1"]⟩ 1
      (by decide) (by decide) (by decide) (by decide)⟩

/-- C9: a failed profile lookup propagates unchanged: `main` ends in the
corresponding error carrying the untouched filesystem, so no key file is
written and no command line is produced. -/
theorem c9_fetch_error_propagates (e : FetchErr) (ip home : String)
    (dirOpt : Option String) (fs : FS) :
    Oslogin.main (.error e) ip dirOpt home fs = .error (.fetchFailed e, fs) := rfl

/-- C10: the formatter on zero paths keeps the double space: the join over
the empty list is the empty parameters string. -/
theorem c10_formatter_empty_paths :
    ssh_command [] "bob" "5.6.7.8" = "ssh  bob@5.6.7.8"
    ∧ String.intercalate " " (([] : List String).map (fun f => "-i " ++ f)) = "" := by
  exact ⟨by decide, rfl⟩
